import Mathlib

/-!
Verification of the abstruse job-scheduler core (`server/scheduler/scheduler.go`).

Shallow embedding conventions:
* `*time.Time` timestamps become `Option Nat`; `lib.TimeNow()` is the
  environment field `now`.
* Go `int` counters (worker `Max`/`Running`) become `Int`.
* The Go map `pending : map[uint]*jobType` becomes an association list
  `List (Nat × JobType)`; the slice `queued : []*core.Job` becomes `List Job`.
* External collaborators (worker registry, job/build stores, the remote
  StartJob/StopJob calls, the SCM client) are abstracted into an `Env` of
  pure functions giving the outcome of each call; persistence and remote
  calls performed by an operation are recorded in its result so theorems can
  speak about them.
* Fields of `core.Job`, `core.Build` and `pb.Job` that the scheduler never
  reads (commands, image, env, repository metadata, ...) are omitted.
* A Go runtime panic (out-of-range string slice) is modelled by `Option`:
  `none` means the operation faults.
-/

namespace Abstruse

/-- A `core.Job` row: the fields the scheduler reads and writes. -/
structure Job where
  id : Nat
  buildId : Nat
  status : String
  startTime : Option Nat
  endTime : Option Nat
  log : String
  deriving Repr, DecidableEq

/-- A `core.Build` row: the fields `updateBuildTime` reads and writes. -/
structure Build where
  id : Nat
  startTime : Option Nat
  endTime : Option Nat
  jobs : List Job
  deriving Repr, DecidableEq

/-- A `core.Worker` handle: id and the capacity counters kept under the
worker's own lock. -/
structure Worker where
  id : String
  max : Int
  running : Int
  deriving Repr, DecidableEq

/-- The remote job descriptor `pb.Job`: the fields the scheduler later reads
back (worker id for `Stop`, status and log chunks from `StartJob`). -/
structure PbJob where
  id : Nat
  buildId : Nat
  workerId : String
  status : String
  log : List String
  deriving Repr, DecidableEq

/-- `jobType`: the value stored in the pending registry. -/
structure JobType where
  job : Job
  pb : PbJob
  deriving Repr, DecidableEq

/-- The scheduler-owned mutable state guarded by the scheduler mutex:
the paused flag, the admission queue and the pending registry. -/
structure SchedState where
  paused : Bool
  queued : List Job
  pending : List (Nat × JobType)
  deriving Repr, DecidableEq

/-- `scm.State` values the scheduler sends: `scm.StateSuccess` / `scm.StateError`. -/
inductive ScmState where
  | success
  | error
  deriving Repr, DecidableEq

/-- Outcomes of every external call the scheduler makes, as pure functions.
`none` for an error field means the call succeeded. -/
structure Env where
  now : Nat
  workers : Except String (List Worker)
  stopJobCall : PbJob → Bool × Option String
  startJobCall : PbJob → PbJob × Option String
  buildFind : Nat → Except String Build
  buildUpdateErr : Build → Option String
  scmErr : Build → ScmState → Option String

/-- Lookup in the pending registry (Go map read `s.pending[id]`). -/
def pendingGet : List (Nat × JobType) → Nat → Option JobType
  | [], _ => none
  | (k, v) :: rest, id => if k = id then some v else pendingGet rest id

/-- Removal from the pending registry (Go `delete(s.pending, id)`). -/
def pendingDelete : List (Nat × JobType) → Nat → List (Nat × JobType)
  | [], _ => []
  | (k, v) :: rest, id =>
    if k = id then pendingDelete rest id else (k, v) :: pendingDelete rest id

/-- Insert-or-overwrite in the pending registry (Go `s.pending[id] = v`). -/
def pendingInsert (p : List (Nat × JobType)) (id : Nat) (v : JobType) :
    List (Nat × JobType) :=
  (id, v) :: pendingDelete p id

/-- `findJob`: linear scan of the admission queue for the first job with the
given id. -/
def findJob (queued : List Job) (id : Nat) : Option Job :=
  queued.find? (fun j => j.id = id)

/-- `removeJob`: excise the first queue entry with the given id (the Go loop
breaks after the first match). -/
def removeJob : List Job → Nat → List Job
  | [], _ => []
  | j :: rest, id => if j.id = id then rest else j :: removeJob rest id

/-- `enqueueJob`: pop the queue head, or fail with `no jobs queued`. -/
def enqueueJob : List Job → Option (Job × List Job)
  | [] => none
  | j :: rest => some (j, rest)

/-- The selection loop of `findWorker`: `if diff > c { worker, c = w, diff }`
starting from `(nil, 0)`. -/
def selectLoop : List Worker → Option Worker → Int → Option Worker × Int
  | [], acc, c => (acc, c)
  | w :: rest, acc, c =>
    let diff := w.max - w.running
    if c < diff then selectLoop rest (some w) diff else selectLoop rest acc c

/-- `findWorker`: list the registry and pick the worker with the greatest
positive free capacity; a registry error is propagated, no worker is `none`. -/
def findWorker (env : Env) : Except String (Option Worker) :=
  match env.workers with
  | .error e => .error e
  | .ok ws => .ok (selectLoop ws none 0).1

/-- `getWorker`: list the registry and find the worker with the given id. -/
def getWorker (env : Env) (id : String) : Except String Worker :=
  match env.workers with
  | .error e => .error e
  | .ok ws =>
    match ws.find? (fun w => w.id = id) with
    | some w => .ok w
    | none => .error "worker not found"

/-- The job walk of `updateBuildTime`, accumulators in Go order: on a job with
nil end time the loop breaks with `alldone = false`; otherwise the running
max-end and min-start are updated. Returns `(alldone, startTime, endTime)`. -/
def walkJobs : List Job → Option Nat → Option Nat → Bool × Option Nat × Option Nat
  | [], startTime, endTime => (true, startTime, endTime)
  | j :: rest, startTime, endTime =>
    match j.endTime with
    | none => (false, startTime, endTime)
    | some e =>
      let endTime' := match endTime with
        | none => some e
        | some cur => if cur < e then some e else some cur
      let startTime' := match startTime with
        | none => j.startTime
        | some cur =>
          match j.startTime with
          | none => some cur
          | some v => if v < cur then some v else some cur
      walkJobs rest startTime' endTime'

/-- The result of one `updateBuildTime` pass: the in-memory build afterwards,
the `buildStore.Update` calls issued in order, the state handed to the SCM
status notifier (if any), and the returned error. -/
structure UBTResult where
  build : Build
  updates : List Build
  sent : Option ScmState
  error : Option String
  deriving Repr, DecidableEq

/-- `updateBuildTime` after a successful `buildStore.Find`: short-circuit when
start and end are both set; walk the jobs; persist a non-nil min start; when
all jobs are done persist the max end and send the overall status. -/
def updateBuildTimeCore (env : Env) (b : Build) : UBTResult :=
  if b.startTime.isSome ∧ b.endTime.isSome then ⟨b, [], none, none⟩
  else
    let t := walkJobs b.jobs none none
    let alldone := t.1
    let startTime := t.2.1
    let endTime := t.2.2
    let b1 := match startTime with
      | none => b
      | some st => { b with startTime := some st }
    let ups1 : List Build := match startTime with
      | none => []
      | some _ => [b1]
    let err1 : Option String := match startTime with
      | none => none
      | some _ => env.buildUpdateErr b1
    match err1 with
    | some e => ⟨b1, ups1, none, some e⟩
    | none =>
      match endTime with
      | none => ⟨b1, ups1, none, none⟩
      | some et =>
        if alldone then
          let b2 := { b1 with endTime := some et }
          match env.buildUpdateErr b2 with
          | some e => ⟨b2, ups1 ++ [b2], none, some e⟩
          | none =>
            let sc : ScmState :=
              if b2.jobs.all (fun j => j.status = "passing")
              then ScmState.success else ScmState.error
            ⟨b2, ups1 ++ [b2], some sc, env.scmErr b2 sc⟩
        else ⟨b1, ups1, none, none⟩

/-- `updateBuildTime`'s returned error for a build id: a `buildStore.Find`
error, or the error of the core pass. -/
def updateBuildTimeErr (env : Env) (id : Nat) : Option String :=
  match env.buildFind id with
  | .error e => some e
  | .ok b => (updateBuildTimeCore env b).error

/-- `saveJob`: the `jobStore.Update` error is logged and swallowed and the
broadcast is fire-and-forget, so the returned error is `updateBuildTime`'s
for the job's build. -/
def saveJobErr (env : Env) (job : Job) : Option String :=
  updateBuildTimeErr env job.buildId

/-- The observable outcome of one `Stop` call. -/
structure StopResult where
  state : SchedState
  saved : List Job
  stopCalls : List PbJob
  ret : Bool × Option String
  deriving Repr, DecidableEq

/-- `Stop(id)`: queued branch — remove, mark failing, set end time, persist,
return `(true, nil)` on save success else `(false, nil)`. Pending branch —
resolve the worker (on failure: mark failing, persist, return `(false, err)`
leaving the pending entry); call `StopJob` (on its error delete the pending
entry); mark failing, persist, return `(stopped, nil)`. Otherwise
`(false, nil)`. -/
def Stop (env : Env) (s : SchedState) (id : Nat) : StopResult :=
  match findJob s.queued id with
  | some job =>
    let s1 := { s with queued := removeJob s.queued id }
    let job1 := { job with status := "failing", endTime := some env.now }
    match saveJobErr env job1 with
    | none => ⟨s1, [job1], [], (true, none)⟩
    | some _ => ⟨s1, [job1], [], (false, none)⟩
  | none =>
    match pendingGet s.pending id with
    | some entry =>
      match getWorker env entry.pb.workerId with
      | .error e =>
        let job1 := { entry.job with status := "failing", endTime := some env.now }
        ⟨s, [job1], [], (false, some e)⟩
      | .ok _ =>
        let r := env.stopJobCall entry.pb
        let s1 := match r.2 with
          | some _ => { s with pending := pendingDelete s.pending entry.job.id }
          | none => s
        let job1 := { entry.job with status := "failing", endTime := some env.now }
        ⟨s1, [job1], [entry.pb], (r.1, none)⟩
    | none => ⟨s, [], [], (false, none)⟩

/-- The observable outcome of one `Next` call. -/
structure NextResult where
  state : SchedState
  saved : List Job
  stopCalls : List PbJob
  deriving Repr, DecidableEq

/-- `Next(job)`: first `Stop(job.ID)` to displace any prior instance, then
append to the queue; the queued entry aliases the job object, so after the
status/time reset it holds the `queued` copy; the save error is only logged
and the dispatch loop is signalled. -/
def Next (env : Env) (s : SchedState) (job : Job) : NextResult :=
  let r := Stop env s job.id
  let job1 := { job with status := "queued", startTime := none, endTime := none }
  ⟨{ r.state with queued := r.state.queued ++ [job1] }, r.saved ++ [job1], r.stopCalls⟩

/-- The observable outcome of one `process` pass of the dispatch loop. -/
structure ProcessResult where
  state : SchedState
  dispatched : Option (Job × Worker)
  error : Option String
  deriving Repr, DecidableEq

/-- One dispatch attempt `process`: pick a worker (a registry error is
returned; no capacity is a no-op), pop the queue head (empty is a no-op), and
hand the pair to `startJob` in a fresh goroutine. The paused flag is not
consulted here — exactly as in the source. -/
def process (env : Env) (s : SchedState) : ProcessResult :=
  match findWorker env with
  | .error e => ⟨s, none, some e⟩
  | .ok none => ⟨s, none, none⟩
  | .ok (some w) =>
    match enqueueJob s.queued with
    | none => ⟨s, none, none⟩
    | some (j, rest) => ⟨{ s with queued := rest }, some (j, w), none⟩

/-- Go string slicing `log[i:]`: defined for `0 ≤ i ≤ len(log)`, otherwise a
runtime panic (`none`). -/
def goSliceFrom (s : String) (i : Int) : Option String :=
  if 0 ≤ i ∧ i ≤ (s.length : Int) then some (String.mk (s.data.drop i.toNat))
  else none

/-- The retry truncation `log[len(log)-65536:]` of `startJob`. -/
def truncateLog (log : String) : Option String :=
  goSliceFrom log ((log.length : Int) - 65536)

/-- The observable outcome of one `startJob` lifecycle. `panicked` records a
Go runtime panic in the post-run save (the deferred counter decrement still
runs in that case, but the pending entry is not removed and no re-signal
happens). `runningDuringStart` is the worker's running counter while the
blocking `StartJob` call is in flight. -/
structure LifeResult where
  worker : Worker
  runningDuringStart : Int
  state : SchedState
  saved : List Job
  panicked : Bool
  deriving Repr, DecidableEq

/-- The job lifecycle `startJob`: reserve capacity, dequeue, persist the
`running` job, register the descriptor as pending, issue the blocking
`StartJob`, persist the outcome (on save failure retry once with the log
truncated to its last 65,536 bytes — a slice that panics on shorter logs),
deregister, release capacity (deferred, so released even on panic). -/
def startJob (env : Env) (s : SchedState) (job : Job) (w : Worker) : LifeResult :=
  let w1 : Worker := { w with running := w.running + 1 }
  let s1 := { s with queued := removeJob s.queued job.id }
  let job1 := { job with
    status := "running"
    log := ""
    startTime := some env.now
    endTime := none }
  let pbj : PbJob := ⟨job1.id, job1.buildId, w.id, "", []⟩
  let s2 := { s1 with pending := pendingInsert s1.pending job1.id ⟨job1, pbj⟩ }
  let res := env.startJobCall pbj
  let job2 := { job1 with
    status := res.1.status
    log := String.join res.1.log
    endTime := some env.now }
  match saveJobErr env job2 with
  | none =>
    let s3 := { s2 with pending := pendingDelete s2.pending job2.id }
    ⟨{ w1 with running := w1.running - 1 }, w1.running, s3, [job1, job2], false⟩
  | some _ =>
    match truncateLog (String.join res.1.log) with
    | none =>
      ⟨{ w1 with running := w1.running - 1 }, w1.running, s2, [job1, job2], true⟩
    | some tl =>
      let job3 := { job2 with log := tl }
      let s3 := { s2 with pending := pendingDelete s2.pending job2.id }
      ⟨{ w1 with running := w1.running - 1 }, w1.running, s3, [job1, job2, job3], false⟩

/-! Spec-side definitions, written from the specification's words, to compare
with the walk the source performs. -/

/-- Spec: the minimum over the non-null start times of a list of jobs. -/
def minStartSpec : List Job → Option Nat
  | [] => none
  | j :: rest =>
    match j.startTime, minStartSpec rest with
    | none, r => r
    | some v, none => some v
    | some v, some m => some (min v m)

/-- Spec: the maximum over the non-null end times of a list of jobs. -/
def maxEndSpec : List Job → Option Nat
  | [] => none
  | j :: rest =>
    match j.endTime, maxEndSpec rest with
    | none, r => r
    | some v, none => some v
    | some v, some m => some (max v m)

/-- The longest leading run of jobs that all have an end time: the jobs the
source's walk actually visits past the end-time check. -/
def donePart (js : List Job) : List Job :=
  js.takeWhile (fun j => j.endTime.isSome)

/-- Minimum of two optional values, `none` acting as the unit. -/
def omin : Option Nat → Option Nat → Option Nat
  | none, b => b
  | some a, none => some a
  | some a, some b => some (min a b)

/-- Maximum of two optional values, `none` acting as the unit. -/
def omax : Option Nat → Option Nat → Option Nat
  | none, b => b
  | some a, none => some a
  | some a, some b => some (max a b)

/-! Lemmas about the job walk. -/

theorem omin_assoc (a b c : Option Nat) : omin (omin a b) c = omin a (omin b c) := by
  cases a <;> cases b <;> cases c <;> simp [omin, min_assoc]

theorem omax_assoc (a b c : Option Nat) : omax (omax a b) c = omax a (omax b c) := by
  cases a <;> cases b <;> cases c <;> simp [omax, max_assoc]

theorem minStartSpec_cons (j : Job) (rest : List Job) :
    minStartSpec (j :: rest) = omin j.startTime (minStartSpec rest) := by
  cases h : j.startTime <;> cases h' : minStartSpec rest <;>
    simp [minStartSpec, omin, h, h']

theorem maxEndSpec_cons (j : Job) (rest : List Job) :
    maxEndSpec (j :: rest) = omax j.endTime (maxEndSpec rest) := by
  cases h : j.endTime <;> cases h' : maxEndSpec rest <;>
    simp [maxEndSpec, omax, h, h']

theorem walkJobs_alldone (js : List Job) (st et : Option Nat) :
    (walkJobs js st et).1 = js.all (fun j => j.endTime.isSome) := by
  induction js generalizing st et with
  | nil => simp [walkJobs]
  | cons j rest ih =>
    cases h : j.endTime with
    | none => simp [walkJobs, h]
    | some e => simp [walkJobs, h, ih]

theorem walkJobs_start (js : List Job) (st et : Option Nat) :
    (walkJobs js st et).2.1 = omin st (minStartSpec (donePart js)) := by
  induction js generalizing st et with
  | nil => simp [walkJobs, donePart, minStartSpec, omin]; cases st <;> simp [omin]
  | cons j rest ih =>
    cases h : j.endTime with
    | none =>
      simp [walkJobs, h, donePart, minStartSpec]
      cases st <;> simp [omin]
    | some e =>
      have hdp : donePart (j :: rest) = j :: donePart rest := by
        simp [donePart, List.takeWhile, h]
      simp only [walkJobs, h]
      rw [ih, hdp, minStartSpec_cons, ← omin_assoc]
      congr 1
      cases hst : st with
      | none => simp [omin]
      | some cur =>
        cases hjs : j.startTime with
        | none => simp [omin]
        | some v =>
          by_cases hlt : v < cur <;> simp [omin, hlt] <;> omega

theorem walkJobs_end (js : List Job) (st et : Option Nat) :
    (walkJobs js st et).2.2 = omax et (maxEndSpec (donePart js)) := by
  induction js generalizing st et with
  | nil => simp [walkJobs, donePart, maxEndSpec]; cases et <;> simp [omax]
  | cons j rest ih =>
    cases h : j.endTime with
    | none =>
      simp [walkJobs, h, donePart, maxEndSpec]
      cases et <;> simp [omax]
    | some e =>
      have hdp : donePart (j :: rest) = j :: donePart rest := by
        simp [donePart, List.takeWhile, h]
      simp only [walkJobs, h]
      rw [ih, hdp, maxEndSpec_cons, ← omax_assoc]
      congr 1
      rw [h]
      cases het : et with
      | none => simp [omax]
      | some cur =>
        by_cases hlt : cur < e <;> simp [omax, hlt] <;> omega

theorem donePart_of_all_done (js : List Job)
    (h : ∀ j ∈ js, j.endTime.isSome) : donePart js = js := by
  induction js with
  | nil => rfl
  | cons j rest ih =>
    have hj : j.endTime.isSome := h j (List.mem_cons_self j rest)
    have : donePart rest = rest := ih (fun x hx => h x (List.mem_cons_of_mem j hx))
    simp [donePart, List.takeWhile, hj] at this ⊢
    exact this

theorem maxEndSpec_isSome (js : List Job) (hne : js ≠ [])
    (h : ∀ j ∈ js, j.endTime.isSome) : (maxEndSpec js).isSome := by
  induction js with
  | nil => exact absurd rfl hne
  | cons j rest ih =>
    have hj : j.endTime.isSome := h j (List.mem_cons_self j rest)
    obtain ⟨e, he⟩ := Option.isSome_iff_exists.mp hj
    cases rest with
    | nil => simp [maxEndSpec, he]
    | cons k rs =>
      have hr := ih (by simp) (fun x hx => h x (List.mem_cons_of_mem j hx))
      obtain ⟨m, hm⟩ := Option.isSome_iff_exists.mp hr
      simp [maxEndSpec_cons, he, hm, omax]

/-! Lemmas about the worker-selection loop. -/

theorem selectLoop_c_le (ws : List Worker) (acc : Option Worker) (c : Int) :
    c ≤ (selectLoop ws acc c).2 := by
  induction ws generalizing acc c with
  | nil => simp [selectLoop]
  | cons w rest ih =>
    simp only [selectLoop]
    by_cases hlt : c < w.max - w.running
    · simp only [hlt, if_pos]
      exact le_of_lt (lt_of_lt_of_le hlt (ih (some w) _))
    · simp only [hlt, if_neg, not_false_iff]
      exact ih acc c

theorem selectLoop_bound (ws : List Worker) (acc : Option Worker) (c : Int) :
    ∀ w ∈ ws, w.max - w.running ≤ (selectLoop ws acc c).2 := by
  induction ws generalizing acc c with
  | nil => intro w hw; simp at hw
  | cons v rest ih =>
    intro w hw
    simp only [selectLoop]
    rcases List.mem_cons.mp hw with h | h
    · subst h
      by_cases hlt : c < w.max - w.running
      · simp only [hlt, if_pos]
        exact selectLoop_c_le rest (some w) _
      · simp only [hlt, if_neg, not_false_iff]
        exact le_trans (not_lt.mp hlt) (selectLoop_c_le rest acc c)
    · by_cases hlt : c < v.max - v.running
      · simp only [hlt, if_pos]
        exact ih (some v) _ w h
      · simp only [hlt, if_neg, not_false_iff]
        exact ih acc c w h

theorem selectLoop_cases (ws : List Worker) (acc : Option Worker) (c : Int) :
    ((selectLoop ws acc c).1 = acc ∧ (selectLoop ws acc c).2 = c) ∨
    (∃ w ∈ ws, (selectLoop ws acc c).1 = some w ∧
      (selectLoop ws acc c).2 = w.max - w.running ∧ c < (selectLoop ws acc c).2) := by
  induction ws generalizing acc c with
  | nil => left; simp [selectLoop]
  | cons v rest ih =>
    simp only [selectLoop]
    by_cases hlt : c < v.max - v.running
    · simp only [hlt, if_pos]
      rcases ih (some v) (v.max - v.running) with ⟨h1, h2⟩ | ⟨w, hw, h1, h2, h3⟩
      · right
        exact ⟨v, List.mem_cons_self v rest, h1, h2, by rw [h2]; exact hlt⟩
      · right
        exact ⟨w, List.mem_cons_of_mem v hw, h1, h2, lt_trans hlt h3⟩
    · simp only [hlt, if_neg, not_false_iff]
      rcases ih acc c with ⟨h1, h2⟩ | ⟨w, hw, h1, h2, h3⟩
      · left; exact ⟨h1, h2⟩
      · right; exact ⟨w, List.mem_cons_of_mem v hw, h1, h2, h3⟩

/-! Lemmas about the queue operations. -/

theorem removeJob_of_findJob_none (q : List Job) (id : Nat)
    (h : findJob q id = none) : removeJob q id = q := by
  induction q with
  | nil => rfl
  | cons j rest ih =>
    simp only [findJob, List.find?] at h
    by_cases hj : j.id = id
    · simp [hj] at h
    · simp only [removeJob, hj, if_neg, not_false_iff]
      rw [ih]
      simpa [findJob, hj] using h

/-- The queue after `Stop`: the first entry with the stopped id is excised
(identically the original queue when no entry matches); the pending branches
leave the queue alone. -/
theorem Stop_queued_eq (env : Env) (s : SchedState) (id : Nat) :
    (Stop env s id).state.queued = removeJob s.queued id := by
  unfold Stop
  cases hf : findJob s.queued id with
  | some job =>
    cases hs : saveJobErr env { job with status := "failing", endTime := some env.now } <;>
      simp [hs]
  | none =>
    rw [removeJob_of_findJob_none s.queued id hf]
    cases hp : pendingGet s.pending id with
    | none => rfl
    | some entry =>
      cases hw : getWorker env entry.pb.workerId with
      | error e => simp [hw]
      | ok w =>
        cases hr : (env.stopJobCall entry.pb).2 <;> simp [hw, hr]

/-- Entries with a given id in the queue. -/
def countId (q : List Job) (id : Nat) : Nat :=
  q.countP (fun j => j.id = id)

theorem countId_removeJob (q : List Job) (id : Nat) :
    countId (removeJob q id) id = countId q id - 1 := by
  induction q with
  | nil => rfl
  | cons j rest ih =>
    by_cases hj : j.id = id
    · simp [removeJob, countId, hj, List.countP_cons]
    · simp only [removeJob, if_neg hj]
      have h1 : countId (j :: removeJob rest id) id = countId (removeJob rest id) id := by
        simp [countId, List.countP_cons, hj]
      have h2 : countId (j :: rest) id = countId rest id := by
        simp [countId, List.countP_cons, hj]
      rw [h1, h2, ih]

theorem countId_append (q r : List Job) (id : Nat) :
    countId (q ++ r) id = countId q id + countId r id := by
  simp [countId, List.countP_append]

/-- The queue after `Next`: the prior entry for the job's id (if any) excised,
the fresh `queued` copy appended. -/
theorem Next_queued_eq (env : Env) (s : SchedState) (job : Job) :
    (Next env s job).state.queued =
      removeJob s.queued job.id ++
        [{ job with status := "queued", startTime := none, endTime := none }] := by
  unfold Next
  simp [Stop_queued_eq]

theorem countId_Next (env : Env) (s : SchedState) (job : Job) :
    countId (Next env s job).state.queued job.id = (countId s.queued job.id - 1) + 1 := by
  rw [Next_queued_eq, countId_append, countId_removeJob]
  simp [countId, List.countP_cons]

/-! Concrete inputs used by witnesses and counterexamples. -/

/-- A concrete environment: one idle worker, stores that succeed (the build
found is already closed, so aggregation short-circuits), an echoing remote. -/
def defaultEnv : Env :=
  { now := 10
    workers := Except.ok [⟨"w1", 2, 0⟩]
    stopJobCall := fun _ => (true, none)
    startJobCall := fun p => ({ p with status := "passing", log := ["ok"] }, none)
    buildFind := fun i => Except.ok ⟨i, some 1, some 2, []⟩
    buildUpdateErr := fun _ => none
    scmErr := fun _ _ => none }

/-! Claim theorems. -/

/-- C6: the worker selector returns the worker with the strictly greatest free
capacity (max − running) among all registered workers, returns null when the
maximum free capacity is ≤ 0 (a worker with running ≥ max is skipped), returns
null without error when the registry is empty, and fails exactly when the
registry's List fails. -/
theorem c6_findWorker_contract (env : Env) :
    (∀ e, env.workers = .error e → findWorker env = .error e) ∧
    (∀ ws, env.workers = .ok ws →
      ∃ r, findWorker env = .ok r ∧
        (r = none ↔ ∀ w ∈ ws, w.max - w.running ≤ 0) ∧
        (∀ w, r = some w → w ∈ ws ∧ 0 < w.max - w.running ∧
          ∀ w' ∈ ws, w'.max - w'.running ≤ w.max - w.running)) := by
  constructor
  · intro e he
    simp [findWorker, he]
  · intro ws hws
    refine ⟨(selectLoop ws none 0).1, by simp [findWorker, hws], ?_, ?_⟩
    · rcases selectLoop_cases ws none 0 with ⟨h1, h2⟩ | ⟨w, hw, h1, h2, h3⟩
      · constructor
        · intro _ w hw
          have := selectLoop_bound ws none 0 w hw
          omega
        · intro _
          exact h1
      · rw [h1]
        constructor
        · intro h; exact absurd h (by simp)
        · intro hall
          have := hall w hw
          omega
    · intro w hr
      rcases selectLoop_cases ws none 0 with ⟨h1, h2⟩ | ⟨w', hw', h1, h2, h3⟩
      · rw [h1] at hr; exact absurd hr (by simp)
      · rw [h1] at hr
        obtain rfl : w' = w := Option.some.injEq _ _ ▸ hr ▸ rfl
        refine ⟨hw', by omega, ?_⟩
        intro w'' hw''
        have := selectLoop_bound ws none 0 w'' hw''
        omega

def c6wA : Worker := ⟨"a", 2, 2⟩

def c6wB : Worker := ⟨"b", 4, 1⟩

def c6wEnv : Env := { defaultEnv with workers := Except.ok [c6wA, c6wB] }

theorem c6_findWorker_contract_witness :
    findWorker c6wEnv = Except.ok (some c6wB) ∧
    ∃ r, findWorker c6wEnv = Except.ok r ∧
      (r = none ↔ ∀ w ∈ [c6wA, c6wB], w.max - w.running ≤ 0) ∧
      (∀ w, r = some w → w ∈ [c6wA, c6wB] ∧ 0 < w.max - w.running ∧
        ∀ w' ∈ [c6wA, c6wB], w'.max - w'.running ≤ w.max - w.running) :=
  ⟨rfl, (c6_findWorker_contract c6wEnv).2 [c6wA, c6wB] rfl⟩

/-- C8: admission is idempotent — `Next(j)` twice in sequence leaves exactly
one queue entry with j's id, because `Next` first calls `Stop(j.id)`, which
displaces any prior queued instance before the append. -/
theorem c8_idempotent_admission (env : Env) (s : SchedState) (job : Job)
    (h : countId s.queued job.id ≤ 1) :
    countId (Next env (Next env s job).state job).state.queued job.id = 1 := by
  rw [countId_Next, countId_Next]
  omega

def c8Job : Job := ⟨5, 2, "queued", none, none, ""⟩

def c8State : SchedState := ⟨false, [], []⟩

theorem c8_idempotent_admission_witness :
    countId c8State.queued c8Job.id ≤ 1 ∧
    countId (Next defaultEnv (Next defaultEnv c8State c8Job).state c8Job).state.queued
      c8Job.id = 1 :=
  ⟨by decide, c8_idempotent_admission defaultEnv c8State c8Job (by decide)⟩

/-- C9: the job lifecycle increments the chosen worker's running counter before
issuing the blocking StartJob (the counter during the call is the pre-dispatch
value plus one) and decrements it exactly once on every exit path — the normal
path, the truncated-retry path and even the panicking retry path — so the
worker's counters end equal to their pre-dispatch values. -/
theorem c9_capacity_counter (env : Env) (s : SchedState) (job : Job) (w : Worker) :
    (startJob env s job w).runningDuringStart = w.running + 1 ∧
    (startJob env s job w).worker = w := by
  obtain ⟨wid, wmax, wrun⟩ := w
  unfold startJob
  dsimp only
  constructor
  · split
    · rfl
    · split <;> rfl
  · split
    · simp
    · split <;> simp

/-- C5: for an id in the admission queue (with the persist succeeding), `Stop`
removes the entry, marks the job failing with an end time, persists it and
returns (true, nil); for an id in neither the queue nor the pending registry,
`Stop` returns (false, nil) and does nothing. -/
theorem c5_stop_queued_or_absent (env : Env) (s : SchedState) (id : Nat) :
    (∀ j, findJob s.queued id = some j →
      saveJobErr env { j with status := "failing", endTime := some env.now } = none →
      (Stop env s id).ret = (true, none) ∧
      (Stop env s id).state.queued = removeJob s.queued id ∧
      countId (Stop env s id).state.queued id = countId s.queued id - 1 ∧
      (Stop env s id).saved = [{ j with status := "failing", endTime := some env.now }]) ∧
    (findJob s.queued id = none → pendingGet s.pending id = none →
      (Stop env s id).ret = (false, none) ∧ (Stop env s id).state = s ∧
      (Stop env s id).saved = [] ∧ (Stop env s id).stopCalls = []) := by
  have hcount : countId (Stop env s id).state.queued id = countId s.queued id - 1 := by
    rw [Stop_queued_eq, countId_removeJob]
  constructor
  · intro j hj hs
    have h1 : Stop env s id =
        ⟨{ s with queued := removeJob s.queued id },
          [{ j with status := "failing", endTime := some env.now }], [], (true, none)⟩ := by
      unfold Stop
      rw [hj]
      dsimp only
      rw [hs]
    exact ⟨by rw [h1], by rw [h1], hcount, by rw [h1]⟩
  · intro hq hp
    have h1 : Stop env s id = ⟨s, [], [], (false, none)⟩ := by
      unfold Stop
      rw [hq]
      dsimp only
      rw [hp]
    exact ⟨by rw [h1], by rw [h1], by rw [h1], by rw [h1]⟩

def c5Job : Job := ⟨7, 3, "queued", none, none, ""⟩

def c5State : SchedState := ⟨false, [c5Job], []⟩

def c5StateB : SchedState := ⟨false, [], []⟩

theorem c5_stop_queued_or_absent_witness :
    (Stop defaultEnv c5State 7).ret = (true, none) ∧
    (Stop defaultEnv c5State 7).state.queued = [] ∧
    (Stop defaultEnv c5StateB 7).ret = (false, none) :=
  ⟨((c5_stop_queued_or_absent defaultEnv c5State 7).1 c5Job (by decide) (by decide)).1,
   ((c5_stop_queued_or_absent defaultEnv c5State 7).1 c5Job (by decide) (by decide)).2.1,
   ((c5_stop_queued_or_absent defaultEnv c5StateB 7).2 (by decide) (by decide)).1⟩

/-- C4 (amended): for an id in the pending registry with a resolvable worker,
`Stop` invokes the worker's StopJob exactly once, marks the job failing with
an end time, persists it, and returns (remote-ack, nil) — StopJob's boolean
result paired with a nil error; StopJob's own error is not returned (it only
decides removal of the pending entry). -/
theorem c4_stop_running_amended (env : Env) (s : SchedState) (id : Nat)
    (entry : JobType) (w : Worker)
    (hq : findJob s.queued id = none)
    (hp : pendingGet s.pending id = some entry)
    (hw : getWorker env entry.pb.workerId = .ok w) :
    (Stop env s id).stopCalls = [entry.pb] ∧
    (Stop env s id).saved =
      [{ entry.job with status := "failing", endTime := some env.now }] ∧
    (Stop env s id).ret = ((env.stopJobCall entry.pb).1, none) := by
  unfold Stop
  rw [hq]
  dsimp only
  rw [hp]
  dsimp only
  rw [hw]
  exact ⟨rfl, rfl, rfl⟩

def c4Pb : PbJob := ⟨9, 4, "w1", "", []⟩

def c4Entry : JobType := ⟨⟨9, 4, "running", some 3, none, ""⟩, c4Pb⟩

def c4State : SchedState := ⟨false, [], [(9, c4Entry)]⟩

def c4Env : Env := { defaultEnv with stopJobCall := fun _ => (false, some "rpc error") }

/-- C4 as stated is false: with the remote StopJob failing, `Stop` returns a
nil error where the claim demands StopJob's error. -/
theorem c4_stop_running_cex :
    (c4Env.stopJobCall c4Pb).2 = some "rpc error" ∧
    (Stop c4Env c4State 9).ret = (false, none) ∧
    (Stop c4Env c4State 9).ret.2 ≠ (c4Env.stopJobCall c4Pb).2 := by
  refine ⟨rfl, rfl, ?_⟩
  decide

theorem c4_stop_running_amended_witness :
    (Stop defaultEnv c4State 9).stopCalls = [c4Pb] ∧
    (Stop defaultEnv c4State 9).saved =
      [{ c4Entry.job with status := "failing", endTime := some 10 }] ∧
    (Stop defaultEnv c4State 9).ret = (true, none) :=
  c4_stop_running_amended defaultEnv c4State 9 c4Entry ⟨"w1", 2, 0⟩
    (by decide) (by decide) rfl

/-- C10: for an id pending with an unresolvable worker, `Stop` persists the
job as failing with an end time and returns (false, err), leaving the pending
entry in place and making no remote call; the pending entry is removed exactly
when the resolved worker's StopJob itself returns an error. -/
theorem c10_stop_unresolvable_worker (env : Env) (s : SchedState) (id : Nat)
    (entry : JobType)
    (hq : findJob s.queued id = none)
    (hp : pendingGet s.pending id = some entry) :
    (∀ err, getWorker env entry.pb.workerId = .error err →
      (Stop env s id).ret = (false, some err) ∧
      (Stop env s id).saved =
        [{ entry.job with status := "failing", endTime := some env.now }] ∧
      (Stop env s id).state.pending = s.pending ∧
      (Stop env s id).stopCalls = []) ∧
    (∀ w, getWorker env entry.pb.workerId = .ok w →
      (Stop env s id).state.pending =
        if ((env.stopJobCall entry.pb).2).isSome
        then pendingDelete s.pending entry.job.id
        else s.pending) := by
  constructor
  · intro err herr
    unfold Stop
    rw [hq]
    dsimp only
    rw [hp]
    dsimp only
    rw [herr]
    exact ⟨rfl, rfl, rfl, rfl⟩
  · intro w hw
    unfold Stop
    rw [hq]
    dsimp only
    rw [hp]
    dsimp only
    rw [hw]
    dsimp only
    cases hr : (env.stopJobCall entry.pb).2 <;> simp [hr]

def c10Pb : PbJob := ⟨11, 6, "ghost", "", []⟩

def c10Entry : JobType := ⟨⟨11, 6, "running", some 3, none, ""⟩, c10Pb⟩

def c10State : SchedState := ⟨false, [], [(11, c10Entry)]⟩

theorem c10_stop_unresolvable_worker_witness :
    (Stop defaultEnv c10State 11).ret = (false, some "worker not found") ∧
    (Stop defaultEnv c10State 11).state.pending = [(11, c10Entry)] ∧
    (Stop defaultEnv c10State 11).stopCalls = [] := by
  have h := (c10_stop_unresolvable_worker defaultEnv c10State 11 c10Entry
    (by decide) (by decide)).1 "worker not found" rfl
  exact ⟨h.1, h.2.2.1, h.2.2.2⟩

def c3Build : Build :=
  ⟨1, none, none,
    [⟨1, 1, "queued", none, none, ""⟩, ⟨2, 1, "passing", some 1, some 5, ""⟩]⟩

/-- C3 as stated is false: in a build whose first job has not ended (and not
started) while the second has started at 1, the minimum over the non-null
start times of all jobs is 1, yet the aggregator leaves build.start_time
null and issues no persist — the walk stops at the first unfinished job. -/
theorem c3_min_start_cex :
    minStartSpec c3Build.jobs = some 1 ∧
    (updateBuildTimeCore defaultEnv c3Build).build.startTime = none ∧
    (updateBuildTimeCore defaultEnv c3Build).updates = [] := by
  decide

/-- C3 (amended): after every job persist the aggregator computes min_start as
the minimum over the non-null start times of the jobs in the longest prefix of
the build's job list whose jobs have all ended (all jobs, when every job has
ended), and whenever that min_start is non-null it sets build.start_time to it
and issues a build persist carrying it — including when a later child job has
not yet finished. -/
theorem c3_min_start_amended (env : Env) (b : Build)
    (hno : ¬ (b.startTime.isSome ∧ b.endTime.isSome))
    (st : Nat) (hst : minStartSpec (donePart b.jobs) = some st) :
    (updateBuildTimeCore env b).build.startTime = some st ∧
    { b with startTime := some st } ∈ (updateBuildTimeCore env b).updates := by
  have hs : (walkJobs b.jobs none none).2.1 = some st := by
    rw [walkJobs_start, hst]
    rfl
  unfold updateBuildTimeCore
  rw [if_neg hno]
  dsimp only
  rw [hs]
  dsimp only
  cases he : env.buildUpdateErr { b with startTime := some st } with
  | some e => simp
  | none =>
    cases het : (walkJobs b.jobs none none).2.2 with
    | none => simp
    | some et =>
      cases had : (walkJobs b.jobs none none).1 with
      | false => simp
      | true =>
        cases hu2 : env.buildUpdateErr { b with startTime := some st, endTime := some et } with
        | some e2 => simp [hu2]
        | none => simp [hu2]

def c3wBuild : Build :=
  ⟨2, none, none,
    [⟨3, 2, "passing", some 2, some 5, ""⟩, ⟨4, 2, "running", some 3, none, ""⟩]⟩

theorem c3_min_start_amended_witness :
    (updateBuildTimeCore defaultEnv c3wBuild).build.startTime = some 2 ∧
    { c3wBuild with startTime := some 2 } ∈
      (updateBuildTimeCore defaultEnv c3wBuild).updates :=
  c3_min_start_amended defaultEnv c3wBuild (by decide) 2 (by decide)

/-- C7: when start and end are both already set the aggregator is a no-op;
once every child job of a (nonempty) build has an end time and the build
persists succeed, the aggregator sets build.end_time to the maximum child end
time, persists that build, and hands the status notifier `success` iff every
child job's status is `passing`, `error` otherwise. -/
theorem c7_terminal_aggregation (env : Env) (b : Build) :
    (b.startTime.isSome → b.endTime.isSome →
      updateBuildTimeCore env b = ⟨b, [], none, none⟩) ∧
    (b.jobs ≠ [] → (∀ j ∈ b.jobs, j.endTime.isSome) →
      ¬ (b.startTime.isSome ∧ b.endTime.isSome) →
      (∀ b', env.buildUpdateErr b' = none) →
      (updateBuildTimeCore env b).build.endTime = maxEndSpec b.jobs ∧
      (updateBuildTimeCore env b).build ∈ (updateBuildTimeCore env b).updates ∧
      ∃ sc, (updateBuildTimeCore env b).sent = some sc ∧
        (sc = ScmState.success ↔ ∀ j ∈ b.jobs, j.status = "passing")) := by
  constructor
  · intro h1 h2
    unfold updateBuildTimeCore
    rw [if_pos ⟨h1, h2⟩]
  · intro hne hall hno hup
    obtain ⟨m, hm⟩ := Option.isSome_iff_exists.mp (maxEndSpec_isSome b.jobs hne hall)
    have hdp : donePart b.jobs = b.jobs := donePart_of_all_done b.jobs hall
    have had : (walkJobs b.jobs none none).1 = true := by
      rw [walkJobs_alldone]
      exact List.all_eq_true.mpr hall
    have hend : (walkJobs b.jobs none none).2.2 = some m := by
      rw [walkJobs_end, hdp, hm]
      rfl
    rw [hm]
    unfold updateBuildTimeCore
    rw [if_neg hno]
    dsimp only
    rw [had, hend]
    by_cases hba : b.jobs.all (fun j => j.status = "passing")
    · cases hst : (walkJobs b.jobs none none).2.1 with
      | none =>
        dsimp only
        rw [hup]
        refine ⟨rfl, by simp, ScmState.success, ?_, ?_⟩
        · simp [hba, hup]
        · exact iff_of_true rfl
            (fun j hj => by simpa using List.all_eq_true.mp hba j hj)
      | some st =>
        dsimp only
        rw [hup, hup]
        refine ⟨rfl, by simp, ScmState.success, ?_, ?_⟩
        · simp [hba, hup]
        · exact iff_of_true rfl
            (fun j hj => by simpa using List.all_eq_true.mp hba j hj)
    · cases hst : (walkJobs b.jobs none none).2.1 with
      | none =>
        dsimp only
        rw [hup]
        refine ⟨rfl, by simp, ScmState.error, ?_, ?_⟩
        · simp [hba, hup]
        · exact iff_of_false (by simp)
            (fun h => hba (List.all_eq_true.mpr (fun j hj => by simpa using h j hj)))
      | some st =>
        dsimp only
        rw [hup, hup]
        refine ⟨rfl, by simp, ScmState.error, ?_, ?_⟩
        · simp [hba, hup]
        · exact iff_of_false (by simp)
            (fun h => hba (List.all_eq_true.mpr (fun j hj => by simpa using h j hj)))

def c7Build : Build :=
  ⟨3, none, none,
    [⟨5, 3, "passing", some 2, some 9, ""⟩, ⟨6, 3, "failing", some 1, some 4, ""⟩]⟩

def c7BuildB : Build := ⟨4, some 1, some 2, []⟩

theorem c7_terminal_aggregation_witness :
    (updateBuildTimeCore defaultEnv c7BuildB = ⟨c7BuildB, [], none, none⟩) ∧
    (updateBuildTimeCore defaultEnv c7Build).build.endTime = maxEndSpec c7Build.jobs ∧
    (updateBuildTimeCore defaultEnv c7Build).build ∈
      (updateBuildTimeCore defaultEnv c7Build).updates ∧
    ∃ sc, (updateBuildTimeCore defaultEnv c7Build).sent = some sc ∧
      (sc = ScmState.success ↔ ∀ j ∈ c7Build.jobs, j.status = "passing") :=
  ⟨(c7_terminal_aggregation defaultEnv c7BuildB).1 (by decide) (by decide),
   (c7_terminal_aggregation defaultEnv c7Build).2 (by decide) (by decide) (by decide)
     (fun _ => rfl)⟩

def c1Job : Job := ⟨1, 1, "queued", none, none, ""⟩

def c1State : SchedState := ⟨true, [c1Job], []⟩

/-- C1 fails on the code: `Pause` sets the paused flag but `process` never
consults it — on a paused scheduler with one queued job and a worker with
free capacity, the dispatch attempt still pops the job from the admission
queue and hands it to the lifecycle; in general the pop and dispatch decision
of `process` is identical with the paused flag cleared. -/
theorem c1_paused_is_ignored :
    c1State.paused = true ∧
    (process defaultEnv c1State).dispatched = some (c1Job, ⟨"w1", 2, 0⟩) ∧
    (process defaultEnv c1State).state.queued = [] ∧
    (∀ env s, (process env s).dispatched =
        (process env { s with paused := false }).dispatched ∧
      (process env s).state.queued =
        (process env { s with paused := false }).state.queued) := by
  refine ⟨rfl, by decide, by decide, ?_⟩
  intro env s
  unfold process
  dsimp only
  cases findWorker env with
  | error e => exact ⟨rfl, rfl⟩
  | ok o =>
    cases o with
    | none => exact ⟨rfl, rfl⟩
    | some w =>
      cases enqueueJob s.queued with
      | none => exact ⟨rfl, rfl⟩
      | some p =>
        obtain ⟨j, rest⟩ := p
        exact ⟨rfl, rfl⟩

def c2Env : Env := { defaultEnv with buildFind := fun _ => Except.error "record too large" }

def c2Job : Job := ⟨42, 7, "queued", none, none, ""⟩

def c2State : SchedState := ⟨false, [c2Job], []⟩

def c2Worker : Worker := ⟨"w1", 2, 0⟩

/-- C2 fails on the code: the retry truncation is the slice
`log[len(log)-65536:]`, whose start index is negative for any accumulated log
shorter than 65,536 bytes — a runtime panic, not a defined truncation. The
slice is defined exactly for logs of at least 65,536 bytes; a lifecycle whose
first post-run persist fails with a 2-byte log panics instead of retrying. -/
theorem c2_truncation_faults :
    truncateLog "ok" = none ∧
    (startJob c2Env c2State c2Job c2Worker).panicked = true ∧
    (∀ log : String, (truncateLog log).isSome ↔ 65536 ≤ log.length) := by
  refine ⟨by decide, by decide, ?_⟩
  intro log
  simp only [truncateLog, goSliceFrom]
  split
  · rename_i h
    simp only [Option.isSome_some, true_iff]
    omega
  · rename_i h
    simp only [Option.isSome_none, Bool.false_eq_true, false_iff]
    intro hc
    exact h ⟨by omega, by omega⟩

end Abstruse
